import Mathlib

/-!
Verification of the csplib rollback-simulation library (`src/csplib.hpp`,
`src/simpletest.cpp`).

The header contains two variants of the library; they are embedded here as
namespaces `V1` (the first copy, `Timeline::add` returning `bool`,
`StageSnapshot::add` via `std::lower_bound`) and `V2` (the second copy,
`Timeline::add` returning `void` and threading a working stage forward,
`StageSnapshot::addEvent` via `push_back` + `std::stable_sort`).

Machine integers: timestamps and actor ids are `uint64_t` used only for
comparison, embedded as `Nat`; the test state `IntState` holds a C++ `int`,
embedded as `Int` (no claim approaches overflow).  `std::map` is embedded as
an association list kept sorted by key, matching the map's canonical
key-ordered contents.  Polymorphic `ActorState` is embedded as a type
parameter `α`; the only state class in the repository is `IntState`, so
`dynamic_cast<IntState*>` always succeeds and is embedded as the identity.
Events are embedded as records whose `apply` field is a function
`Stage → Stage × Bool` (the C++ `apply(Stage&)` returning `bool`).
-/

namespace Csplib

/-- `std::map` contents as a key-sorted association list: insert-or-assign
(`m[k] = v`). -/
def mapInsert (k : Nat) (v : β) : List (Nat × β) → List (Nat × β)
  | [] => [(k, v)]
  | (k', v') :: rest =>
    if k < k' then (k, v) :: (k', v') :: rest
    else if k = k' then (k, v) :: rest
    else (k', v') :: mapInsert k v rest

/-- `std::map::find`, as the looked-up value (`end()` becomes `none`). -/
def mapFind (k : Nat) : List (Nat × β) → Option β
  | [] => none
  | (k', v') :: rest => if k = k' then some v' else mapFind k rest

/-- `std::map::erase(iterator)` for a valid iterator: drop the key's entry. -/
def mapEraseKey (k : Nat) : List (Nat × β) → List (Nat × β)
  | [] => []
  | (k', v') :: rest => if k = k' then rest else (k', v') :: mapEraseKey k rest

/-- `vec[i] = x` (no effect out of range, which never happens in the code). -/
def listSet (x : β) : Nat → List β → List β
  | _, [] => []
  | 0, _ :: ys => x :: ys
  | n + 1, y :: ys => y :: listSet x n ys

/-- In-place update of `vec[i]` (no effect out of range). -/
def listModify (f : β → β) : Nat → List β → List β
  | _, [] => []
  | 0, y :: ys => f y :: ys
  | n + 1, y :: ys => y :: listModify f n ys

/-- The loop body of `Timeline::indexOf`, shared verbatim by both variants:
scan the snapshot begin-times from position `i`; on the first begin with
`when < begin || when == begin` return `i - 1`; after the loop return
`size - 1`. -/
def indexOfFrom (w : Nat) : Nat → List Nat → Int
  | i, [] => (i : Int) - 1
  | i, b :: rest => if w < b ∨ w = b then (i : Int) - 1 else indexOfFrom w (i + 1) rest

namespace V1

abbrev ActorID := Nat

/-- `Actor`: id paired with its (exclusively owned) state. -/
structure Actor (α : Type) where
  id : ActorID
  state : α
deriving DecidableEq

/-- `Stage`: `std::map<ActorID, Actor*>`. -/
abbrev Stage (α : Type) := List (ActorID × Actor α)

/-- `Stage::add`: `m_actors[actor->id()] = actor`. -/
def Stage.add (s : Stage α) (a : Actor α) : Stage α := mapInsert a.id a s

/-- `Stage::get`. -/
def Stage.get (s : Stage α) (id : ActorID) : Option (Actor α) := mapFind id s

/-- `Stage::remove`: `m_actors.erase(m_actors.find(id))`.  When `id` is
absent, `find` yields `end()` and `std::map::erase(end())` is undefined
behavior, embedded as `none`. -/
def Stage.remove (s : Stage α) (id : ActorID) : Option (Stage α) :=
  match mapFind id s with
  | none => none
  | some _ => some (mapEraseKey id s)

/-- `Event`: timestamp, target, and the virtual `apply`. -/
structure Event (α : Type) where
  when : Nat
  target : ActorID
  apply : Stage α → Stage α × Bool

/-- Apply a list of events to a stage in order, discarding the returned
bools, as the replay loops in `Timeline::add` do. -/
def applyEvents (es : List (Event α)) (s : Stage α) : Stage α :=
  es.foldl (fun st e => (e.apply st).1) s

/-- `StageSnapshot`: begin time, base stage, ordered event list. -/
structure Snapshot (α : Type) where
  begin : Nat
  stage : Stage α
  events : List (Event α)

/-- `std::lower_bound` insertion used by `StageSnapshot::add`: the event is
placed before the first element that is not `< event`. -/
def insertLower (e : Event α) : List (Event α) → List (Event α)
  | [] => [e]
  | x :: xs => if x.when < e.when then x :: insertLower e xs else e :: x :: xs

/-- `StageSnapshot::add`. -/
def Snapshot.add (sn : Snapshot α) (e : Event α) : Snapshot α :=
  { sn with events := insertLower e sn.events }

/-- `Timeline`: the snapshot vector. -/
structure Timeline (α : Type) where
  snapshots : List (Snapshot α)

/-- `Timeline::Timeline()`: one sentinel snapshot at time zero. -/
def freshTimeline : Timeline α := ⟨[⟨0, [], []⟩]⟩

/-- `Timeline::indexOf`. -/
def indexOf (tl : Timeline α) (e : Event α) : Int :=
  indexOfFrom e.when 0 (tl.snapshots.map Snapshot.begin)

/-- One iteration of the replay loop in the first variant's `Timeline::add`:
`auto stage = m_snapshots[closestIndex].stage();` (a deep copy, re-read from
the *current* vector on every iteration), apply `m_snapshots[i].events()`,
then `m_snapshots[i].setStage(std::move(stage))`. -/
def step (snaps : List (Snapshot α)) (k i : Nat) : List (Snapshot α) :=
  match snaps.get? k, snaps.get? i with
  | some snk, some sni =>
      listSet { sni with stage := applyEvents sni.events snk.stage } i snaps
  | _, _ => snaps

/-- The body of the accepting branch of the first variant's `Timeline::add`
with located index `k`: insert the event into snapshot `k`, then run the
replay loop `for (unsigned i = closestIndex; i < m_snapshots.size(); i++)`. -/
def addSnaps (tl : Timeline α) (e : Event α) (k : Nat) : List (Snapshot α) :=
  let snaps := listModify (fun sn => Snapshot.add sn e) k tl.snapshots
  (List.range' k (snaps.length - k)).foldl (fun acc i => step acc k i) snaps

/-- First variant `Timeline::add`. -/
def add (tl : Timeline α) (e : Event α) : Timeline α × Bool :=
  if indexOf tl e = -1 then (tl, false)
  else (⟨addSnaps tl e (indexOf tl e).toNat⟩, true)

/-- `Timeline::snapshotAt`: push a snapshot whose base deep-copies
`latest().stage()`.  (`back()` on an empty vector never happens.) -/
def snapshotAt (tl : Timeline α) (now : Nat) : Timeline α :=
  match tl.snapshots.getLast? with
  | some last => ⟨tl.snapshots ++ [⟨now, last.stage, []⟩]⟩
  | none => tl

/-- The clamping `if (count < 1) count = 1;` at the top of
`Timeline::limitSnapshots`. -/
def clampCount (count : Int) : Int := if count < 1 then 1 else count

/-- `Timeline::limitSnapshots`: keep only the most recent `count` snapshots
(at least one), erasing the oldest `size - count` ones. -/
def limitSnapshots (tl : Timeline α) (count : Int) : Timeline α :=
  if (tl.snapshots.length : Int) ≤ clampCount count then tl
  else ⟨tl.snapshots.drop (tl.snapshots.length - (clampCount count).toNat)⟩

/-- `Timeline::stage()`: the latest snapshot's stage (the live view). -/
def live (tl : Timeline α) : Option (Stage α) :=
  (tl.snapshots.getLast?).map Snapshot.stage

/-- Fold a submission sequence into a fresh timeline. -/
def run (σ : List (Event α)) : Timeline α :=
  σ.foldl (fun tl e => (add tl e).1) freshTimeline

end V1

namespace CE

/-- `CreateEvent` of `simpletest.cpp` over the first variant's API: fails if
the target exists, otherwise registers a fresh `IntState(0)`. -/
def create (w : Nat) (id : Nat) : V1.Event Int :=
  { when := w, target := id,
    apply := fun s =>
      match V1.Stage.get s id with
      | some _ => (s, false)
      | none => (V1.Stage.add s ⟨id, 0⟩, true) }

/-- `IncrementEvent` of `simpletest.cpp` over the first variant's API. -/
def inc (w : Nat) (id : Nat) : V1.Event Int :=
  { when := w, target := id,
    apply := fun s =>
      match V1.Stage.get s id with
      | none => (s, false)
      | some a => (V1.Stage.add s ⟨id, a.state + 1⟩, true) }

/-- `DoubleEvent` of `simpletest.cpp` over the first variant's API. -/
def dbl (w : Nat) (id : Nat) : V1.Event Int :=
  { when := w, target := id,
    apply := fun s =>
      match V1.Stage.get s id with
      | none => (s, false)
      | some a => (V1.Stage.add s ⟨id, a.state * 2⟩, true) }

end CE

namespace V1

/-- `CallbackEvent`'s mutable fields `m_first` and `m_lastValue`
(`m_lastValue` is uninitialized until the first application, so the initial
state carries an arbitrary bool there). -/
structure CBState where
  first : Bool
  lastValue : Bool

/-- One call of `CallbackEvent::apply` on the wrapped event `w`: returns the
updated stage, the wrapper's return value (always `true`), the successor
`CBState`, and the sink invocation performed (if any). -/
def callbackApply (w : Event α) (st : CBState) (s : Stage α) :
    Stage α × Bool × CBState × Option (ActorID × Bool) :=
  let r := w.apply s
  let value := r.2
  (r.1, true, ⟨false, value⟩,
    if st.first || value != st.lastValue then some (w.target, value) else none)

/-- A sequence of applications of one `CallbackEvent` instance to the given
stages (the wrapper's internal fields survive between applications); records
each application's returned bool and sink invocation. -/
def callbackRun (w : Event α) : CBState → List (Stage α) → List (Bool × Option (ActorID × Bool))
  | _, [] => []
  | st, s :: rest =>
    let o := callbackApply w st s
    (o.2.1, o.2.2.2) :: callbackRun w o.2.2.1 rest

end V1

namespace V2

abbrev ActorID := Nat

/-- Second variant `Stage`: `std::map<ActorID, ActorState*>`. -/
abbrev Stage (α : Type) := List (ActorID × α)

/-- `Stage::setMapping`. -/
def Stage.setMapping (s : Stage α) (id : ActorID) (v : α) : Stage α := mapInsert id v s

/-- `Stage::find`. -/
def Stage.find (s : Stage α) (id : ActorID) : Option α := mapFind id s

/-- `Stage::clearMapping`: `m_actors.erase(m_actors.find(id))`; undefined
behavior (embedded as `none`) when `id` is absent. -/
def Stage.clearMapping (s : Stage α) (id : ActorID) : Option (Stage α) :=
  match mapFind id s with
  | none => none
  | some _ => some (mapEraseKey id s)

/-- Second variant `Event`. -/
structure Event (α : Type) where
  when : Nat
  target : ActorID
  apply : Stage α → Stage α × Bool

/-- Event-list replay, bools discarded. -/
def applyEvents (es : List (Event α)) (s : Stage α) : Stage α :=
  es.foldl (fun st e => (e.apply st).1) s

/-- Second variant `StageSnapshot`. -/
structure Snapshot (α : Type) where
  begin : Nat
  stage : Stage α
  events : List (Event α)

/-- The ordering `*a < *b` used by `StageSnapshot::addEvent`'s
`std::stable_sort` compares timestamps only; its associated stable sort is
embedded as `List.insertionSort` with the reflexive closure `≤`, which is
stable (equivalent elements keep their input order) and sorts by `when`,
exactly the contract of `std::stable_sort` with the strict `<` comparator. -/
def ele (a b : Event α) : Prop := a.when ≤ b.when

instance : DecidableRel (ele (α := α)) := fun a b => Nat.decLe a.when b.when

instance : IsTotal (Event α) ele := ⟨fun a b => Nat.le_total a.when b.when⟩

instance : IsTrans (Event α) ele := ⟨fun _ _ _ => Nat.le_trans⟩

/-- `StageSnapshot::addEvent`: `push_back` then `stable_sort`. -/
def Snapshot.addEvent (sn : Snapshot α) (e : Event α) : Snapshot α :=
  { sn with events := List.insertionSort ele (sn.events ++ [e]) }

/-- Second variant `Timeline`: snapshot vector plus the separate `m_latest`
snapshot holding the live stage. -/
structure Timeline (α : Type) where
  snapshots : List (Snapshot α)
  latest : Snapshot α

/-- `Timeline::Timeline()`. -/
def fresh : Timeline α := ⟨[⟨0, [], []⟩], ⟨0, [], []⟩⟩

/-- `Timeline::indexOf` (textually identical to the first variant's). -/
def indexOf (tl : Timeline α) (e : Event α) : Int :=
  indexOfFrom e.when 0 (tl.snapshots.map Snapshot.begin)

/-- The replay of the second variant's `Timeline::add`, over the snapshot
suffix starting at `closestIndex`, threading the working stage forward:
for each snapshot before the last, apply its events to the working stage and
write the result into the *next* snapshot's base (`updateRegistryTo`); for
the last snapshot, apply its events and return the final stage destined for
`m_latest` (`replaceRegistryWith`). -/
def thread (w : Stage α) (cur : Snapshot α) : List (Snapshot α) → List (Snapshot α) × Stage α
  | [] => ([cur], applyEvents cur.events w)
  | y :: rest =>
    let w' := applyEvents cur.events w
    let t := thread w' { y with stage := w' } rest
    (cur :: t.1, t.2)

/-- The accepting branch of the second variant's `Timeline::add` with
located index `k`: insert the event into snapshot `k` (`addEvent`), clone
that snapshot's stage, and run the threading replay over the suffix. -/
def addReplay (tl : Timeline α) (e : Event α) (k : Nat) : Timeline α :=
  let snaps := listModify (fun sn => Snapshot.addEvent sn e) k tl.snapshots
  match snaps.get? k, snaps.drop k with
  | some snk, x :: rest =>
    let t := thread snk.stage x rest
    ⟨snaps.take k ++ t.1, { tl.latest with stage := t.2 }⟩
  | _, _ => { tl with snapshots := snaps }

/-- Second variant `Timeline::add` (returns `void`; rejected events leave the
timeline unchanged). -/
def add (tl : Timeline α) (e : Event α) : Timeline α :=
  if indexOf tl e = -1 then tl else addReplay tl e (indexOf tl e).toNat

/-- `Timeline::makeNewSnapshot`. -/
def makeNewSnapshot (tl : Timeline α) (now : Nat) : Timeline α :=
  { tl with snapshots := tl.snapshots ++ [⟨now, tl.latest.stage, []⟩] }

/-- Fold a submission sequence into a fresh timeline. -/
def run (σ : List (Event α)) : Timeline α := σ.foldl add fresh

end V2

namespace ST

/-- `CreateEvent` of `simpletest.cpp` (second copy, second variant API). -/
def create (w : Nat) (id : Nat) : V2.Event Int :=
  { when := w, target := id,
    apply := fun s =>
      match V2.Stage.find s id with
      | some _ => (s, false)
      | none => (V2.Stage.setMapping s id 0, true) }

/-- `IncrementEvent` of `simpletest.cpp`. -/
def inc (w : Nat) (id : Nat) : V2.Event Int :=
  { when := w, target := id,
    apply := fun s =>
      match V2.Stage.find s id with
      | none => (s, false)
      | some v => (V2.Stage.setMapping s id (v + 1), true) }

/-- `DoubleEvent` of `simpletest.cpp`. -/
def dbl (w : Nat) (id : Nat) : V2.Event Int :=
  { when := w, target := id,
    apply := fun s =>
      match V2.Stage.find s id with
      | none => (s, false)
      | some v => (V2.Stage.setMapping s id (v * 2), true) }

end ST

namespace CE

/-- Submission order: create actor 100 at `t = 1`, then increment it at
`t = 2`, then increment it at `t = 3`. -/
def sigma1 : List (V1.Event Int) := [create 1 100, inc 2 100, inc 3 100]

/-- The reverse submission order of the same events. -/
def sigma2 : List (V1.Event Int) := [inc 3 100, inc 2 100, create 1 100]

/-- First-variant timeline reaching the base-correctness failure: create
actor 100 at `t = 1`, snapshot at `t = 10`, increment at `t = 11`, snapshot
at `t = 20`, then back-insert an increment at `t = 2`. -/
def tlC2 : V1.Timeline Int :=
  (V1.add
    (V1.snapshotAt
      ((V1.add
        (V1.snapshotAt ((V1.add V1.freshTimeline (create 1 100)).1) 10)
        (inc 11 100)).1) 20)
    (inc 2 100)).1

end CE

/-- The claim's base-replay formula (spec §8 property 3, relativised to
`snapshots[0].base` as claim C2 states it): the stage obtained by starting
from `snapshots[0]`'s base stage and applying, in order, every event of
every snapshot with index `< i`. -/
def baseReplay (tl : V1.Timeline α) (i : Nat) : Option (V1.Stage α) :=
  (tl.snapshots.head?).map fun s0 =>
    V1.applyEvents (((tl.snapshots.take i).map V1.Snapshot.events).flatten) s0.stage

/-- The sink-invocation log the spec describes for `CallbackEvent`: given
the previously produced value (`none` before the first application) and the
sequence of values produced by the wrapped event, each application returns
`true` and invokes the sink exactly on the first application or when the
value differs from the previous one. -/
def specSinkLog (target : Nat) : Option Bool → List Bool → List (Bool × Option (Nat × Bool))
  | _, [] => []
  | none, v :: vs => (true, some (target, v)) :: specSinkLog target (some v) vs
  | some prev, v :: vs =>
    (true, if v != prev then some (target, v) else none) :: specSinkLog target (some v) vs

/-- Effect of one `V2.add` call on the event log of a fresh single-snapshot
timeline: an event with a positive timestamp is stably sorted into the log
(`addEvent`), an event with timestamp `0` is rejected (`indexOf` returns
`-1` because `when == snapshots[0].begin`). -/
def logStep (L : List (V2.Event α)) (e : V2.Event α) : List (V2.Event α) :=
  if 0 < e.when then List.insertionSort V2.ele (L ++ [e]) else L

/-- Iterated `logStep` over a submission sequence. -/
def foldLog (L : List (V2.Event α)) (σ : List (V2.Event α)) : List (V2.Event α) :=
  σ.foldl logStep L

/-- Claim C1 (counterexample): the ordered-replay-equivalence claim is false
on the first variant's `Timeline::add`, already for an event multiset with
pairwise distinct timestamps: submitting create(100)@1, inc(100)@2,
inc(100)@3 to a fresh timeline leaves actor 100 at value 3, while the
reverse submission order of the same multiset leaves it at value 2, because
each `add` replays the snapshot's events on top of the snapshot's already
updated stage instead of a pristine base. -/
theorem c1_counterexample :
    CE.sigma1.Perm CE.sigma2 ∧
      V1.live (V1.run CE.sigma1) = some [(100, ⟨100, 3⟩)] ∧
      V1.live (V1.run CE.sigma2) = some [(100, ⟨100, 2⟩)] ∧
      V1.live (V1.run CE.sigma1) ≠ V1.live (V1.run CE.sigma2) :=
  ⟨(CE.sigma1.reverse_perm).symm, by decide, by decide, by decide⟩

/-- Claim C2 (code bug, evaluation at the failing input): after the final
successful `add` in `CE.tlC2` (first variant), snapshot 2's stored stage is
`{100 ↦ 1}`, whereas replaying every event of snapshots 0 and 1 from
snapshot 0's stored stage yields `{100 ↦ 3}` — the first variant's `add`
overwrites each snapshot's stage with its post-event stage and re-reads
`snapshots[closestIndex]` instead of threading the working stage forward,
so the base-correctness equation of the claim fails. -/
theorem c2_base_divergence :
    (CE.tlC2.snapshots.get? 2).map V1.Snapshot.stage = some [(100, ⟨100, 1⟩)] ∧
      baseReplay CE.tlC2 2 = some [(100, ⟨100, 3⟩)] ∧
      (CE.tlC2.snapshots.get? 2).map V1.Snapshot.stage ≠ baseReplay CE.tlC2 2 :=
  ⟨by decide, by decide, by decide⟩

/-- Claim C3 (counterexample): an event whose timestamp equals the oldest
retained snapshot's begin (here the fresh timeline's sentinel begin `0`) is
rejected — `add` returns `false` although the timestamp is not strictly less
than `snapshots[0].begin`. -/
theorem c3_counterexample :
    (V1.add V1.freshTimeline (CE.inc 0 100)).2 = false ∧
      (V1.freshTimeline (α := Int)).snapshots.head? = some ⟨0, [], []⟩ ∧
      ¬(CE.inc 0 100).when < 0 :=
  ⟨by decide, rfl, by decide⟩

/-- Claim C4 (counterexample): with snapshot begins `[0, 10]`, an event at
`t = 10` satisfies `snapshots[1].begin ≤ t`, so the claim requires it to
anchor in snapshot 1; `indexOf` instead returns 0 and `add` inserts the
event into snapshot 0's list, leaving snapshot 1's list empty. -/
theorem c4_counterexample :
    V1.indexOf (V1.snapshotAt (V1.freshTimeline (α := Int)) 10) (CE.inc 10 100) = 0 ∧
      ((V1.snapshotAt (V1.freshTimeline (α := Int)) 10).snapshots.map V1.Snapshot.begin) = [0, 10] ∧
      (((V1.add (V1.snapshotAt (V1.freshTimeline (α := Int)) 10) (CE.inc 10 100)).1.snapshots.map
        (fun sn => sn.events.length)) = [1, 0]) :=
  ⟨by decide, by decide, by decide⟩

/-- Claim C5 (counterexample): `StageSnapshot::add` inserts with
`std::lower_bound`, so a later-inserted event with an equal timestamp lands
*before* the earlier one: inserting inc@5 on actor 1 and then inc@5 on
actor 2 yields the event list with targets `[2, 1]`, the reverse of the
insertion order `[1, 2]`. -/
theorem c5_counterexample :
    ((V1.Snapshot.add (V1.Snapshot.add ⟨0, [], []⟩ (CE.inc 5 1)) (CE.inc 5 2)).events.map
        V1.Event.target) = [2, 1] ∧ [2, 1] ≠ [1, 2] :=
  ⟨by decide, by decide⟩

/-- Claim C6: the S1 seed scenario of the spec, run on the code of
`simpletest.cpp` (second copy): after create(100)@1005, create(101)@1006,
double(101)@1008 the live stage holds actor 101 at value 0; after
back-inserting increment(101)@1007 it holds actor 101 at value 2. -/
theorem c6_seed_scenario :
    (V2.run [ST.create 1005 100, ST.create 1006 101, ST.dbl 1008 101]).latest.stage.find 101
        = some 0 ∧
      (V2.add (V2.run [ST.create 1005 100, ST.create 1006 101, ST.dbl 1008 101])
          (ST.inc 1007 101)).latest.stage.find 101 = some 2 :=
  ⟨by decide, by decide⟩

theorem callbackRun_after_first (w : V1.Event α) :
    ∀ (stages : List (V1.Stage α)) (prev : Bool),
      V1.callbackRun w ⟨false, prev⟩ stages
        = specSinkLog w.target (some prev) (stages.map fun s => (w.apply s).2)
  | [], _ => rfl
  | s :: rest, prev => by
    simp only [V1.callbackRun, V1.callbackApply, List.map_cons, specSinkLog, Bool.false_or]
    rw [callbackRun_after_first w rest]

/-- Claim C7: over any sequence of applications of a `CallbackEvent` (any
initial junk in the uninitialized `m_lastValue`), every application returns
`true`, and the sink is invoked with `(wrapped.target, v)` exactly on the
first application or when the wrapped event's value `v` differs from the
previously produced one. -/
theorem c7_callback_transitions (w : V1.Event α) (b0 : Bool) (stages : List (V1.Stage α)) :
    V1.callbackRun w ⟨true, b0⟩ stages
      = specSinkLog w.target none (stages.map fun s => (w.apply s).2) := by
  cases stages with
  | nil => rfl
  | cons s rest =>
    simp only [V1.callbackRun, V1.callbackApply, List.map_cons, specSinkLog, Bool.true_or]
    rw [callbackRun_after_first w rest]
    simp

theorem listSet_length (x : β) : ∀ (i : Nat) (l : List β), (listSet x i l).length = l.length
  | i, [] => by cases i <;> rfl
  | 0, _ :: _ => rfl
  | n + 1, y :: ys => by simp [listSet, listSet_length x n ys]

theorem listModify_length (f : β → β) :
    ∀ (i : Nat) (l : List β), (listModify f i l).length = l.length
  | i, [] => by cases i <;> rfl
  | 0, _ :: _ => rfl
  | n + 1, y :: ys => by simp [listModify, listModify_length f n ys]

theorem step_length (snaps : List (V1.Snapshot α)) (k i : Nat) :
    (V1.step snaps k i).length = snaps.length := by
  unfold V1.step
  split
  · exact listSet_length _ _ _
  · rfl

theorem foldl_step_length (k : Nat) :
    ∀ (L : List Nat) (acc : List (V1.Snapshot α)),
      (L.foldl (fun a i => V1.step a k i) acc).length = acc.length
  | [], _ => rfl
  | i :: L, acc => by
    rw [List.foldl_cons, foldl_step_length k L, step_length]

theorem addSnaps_length (tl : V1.Timeline α) (e : V1.Event α) (k : Nat) :
    (V1.addSnaps tl e k).length = tl.snapshots.length := by
  unfold V1.addSnaps
  rw [foldl_step_length, listModify_length]

/-- Claim C9: the snapshot list is non-empty after construction and stays
non-empty after every `add`, `snapshotAt` and `limitSnapshots` call, and
`limitSnapshots(n)` with `n < 1` behaves exactly as `limitSnapshots(1)`. -/
theorem c9_snapshots_nonempty (tl : V1.Timeline α) (e : V1.Event α) (t : Nat) (n : Int)
    (h : tl.snapshots ≠ []) :
    (V1.freshTimeline (α := α)).snapshots ≠ [] ∧
      (V1.add tl e).1.snapshots ≠ [] ∧
      (V1.snapshotAt tl t).snapshots ≠ [] ∧
      (V1.limitSnapshots tl n).snapshots ≠ [] ∧
      (n < 1 → V1.limitSnapshots tl n = V1.limitSnapshots tl 1) := by
  rw [← List.length_pos] at h
  refine ⟨List.cons_ne_nil _ _, ?_, ?_, ?_, ?_⟩
  · rw [← List.length_pos]
    unfold V1.add
    split
    · exact h
    · show 0 < (V1.addSnaps tl e (V1.indexOf tl e).toNat).length
      rw [addSnaps_length]
      exact h
  · rw [← List.length_pos]
    unfold V1.snapshotAt
    split
    · simp
    · exact h
  · rw [← List.length_pos]
    unfold V1.limitSnapshots
    split
    · exact h
    · rename_i hc
      rw [Int.not_le] at hc
      have hc1 : 1 ≤ V1.clampCount n := by
        unfold V1.clampCount
        split <;> omega
      simp only [List.length_drop]
      omega
  · intro hn
    have hcc : V1.clampCount n = V1.clampCount 1 := by
      unfold V1.clampCount
      rw [if_pos hn, if_neg (by omega)]
    unfold V1.limitSnapshots
    rw [hcc]

/-- Witness for `c9_snapshots_nonempty` at the fresh timeline with
`limitSnapshots(0)`. -/
theorem c9_snapshots_nonempty_witness :
    (V1.freshTimeline (α := Int)).snapshots ≠ [] ∧
      V1.limitSnapshots (V1.freshTimeline (α := Int)) 0
        = V1.limitSnapshots (V1.freshTimeline (α := Int)) 1 :=
  ⟨List.cons_ne_nil _ _,
    (c9_snapshots_nonempty (V1.freshTimeline (α := Int)) (CE.inc 5 100) 7 0
      (List.cons_ne_nil _ _)).2.2.2.2 (by decide)⟩

theorem get?_listSet_ne (x : β) :
    ∀ (i : Nat) (l : List β) (j : Nat), j ≠ i → (listSet x i l).get? j = l.get? j
  | i, [], _, _ => by cases i <;> rfl
  | 0, y :: ys, j, hj => by
    cases j with
    | zero => omega
    | succ m => rfl
  | i + 1, y :: ys, j, hj => by
    cases j with
    | zero => rfl
    | succ m => simpa [listSet] using get?_listSet_ne x i ys m (by omega)

theorem get?_listModify_ne (f : β → β) :
    ∀ (i : Nat) (l : List β) (j : Nat), j ≠ i → (listModify f i l).get? j = l.get? j
  | i, [], _, _ => by cases i <;> rfl
  | 0, y :: ys, j, hj => by
    cases j with
    | zero => omega
    | succ m => rfl
  | i + 1, y :: ys, j, hj => by
    cases j with
    | zero => rfl
    | succ m => simpa [listModify] using get?_listModify_ne f i ys m (by omega)

theorem get?_step_ne (snaps : List (V1.Snapshot α)) (k i j : Nat) (hj : j ≠ i) :
    (V1.step snaps k i).get? j = snaps.get? j := by
  unfold V1.step
  split
  · exact get?_listSet_ne _ _ _ _ hj
  · rfl

theorem mem_range'_le : ∀ (n s m : Nat), m ∈ List.range' s n → s ≤ m
  | 0, s, m, h => by simp [List.range'] at h
  | n + 1, s, m, h => by
    rw [List.range'] at h
    rcases List.mem_cons.mp h with h | h
    · omega
    · have := mem_range'_le n (s + 1) m h
      omega

theorem get?_foldl_step (k j : Nat) (hj : j < k) :
    ∀ (L : List Nat) (acc : List (V1.Snapshot α)), (∀ m ∈ L, k ≤ m) →
      (L.foldl (fun a i => V1.step a k i) acc).get? j = acc.get? j
  | [], acc, _ => rfl
  | i :: L, acc, hL => by
    rw [List.foldl_cons, get?_foldl_step k j hj L _ (fun m hm => hL m (List.mem_cons_of_mem _ hm)),
      get?_step_ne]
    have := hL i (List.mem_cons_self _ _)
    omega

/-- Claim C10: when `Timeline::add` locates the event at snapshot index `i`
(`indexOf` returns `i ≥ 0`), the call returns `true` and every snapshot at
an index strictly below `i` — begin time, base stage and event list — is
unchanged. -/
theorem c10_frame (tl : V1.Timeline α) (e : V1.Event α) (i : Nat)
    (h : V1.indexOf tl e = (i : Int)) (j : Nat) (hj : j < i) :
    (V1.add tl e).2 = true ∧
      (V1.add tl e).1.snapshots.get? j = tl.snapshots.get? j := by
  have hne : ¬(V1.indexOf tl e = -1) := by rw [h]; omega
  unfold V1.add
  rw [if_neg hne]
  refine ⟨rfl, ?_⟩
  simp only [h, Int.toNat_natCast]
  unfold V1.addSnaps
  rw [get?_foldl_step i j hj _ _ (fun m hm => mem_range'_le _ _ _ hm),
    get?_listModify_ne _ _ _ _ (by omega)]

/-- Witness for `c10_frame`: fresh timeline plus a snapshot at `t = 10`;
an event at `t = 11` locates at index 1 and snapshot 0 is unchanged. -/
theorem c10_frame_witness :
    V1.indexOf (V1.snapshotAt (V1.freshTimeline (α := Int)) 10) (CE.inc 11 100) = ((1 : Nat) : Int) ∧
      (V1.add (V1.snapshotAt (V1.freshTimeline (α := Int)) 10) (CE.inc 11 100)).1.snapshots.get? 0
        = (V1.snapshotAt (V1.freshTimeline (α := Int)) 10).snapshots.get? 0 :=
  ⟨by decide,
    (c10_frame (V1.snapshotAt (V1.freshTimeline (α := Int)) 10) (CE.inc 11 100) 1 (by decide) 0
      (by decide)).2⟩

theorem indexOfFrom_ge (w : Nat) : ∀ (l : List Nat) (i : Nat), (i : Int) - 1 ≤ indexOfFrom w i l
  | [], i => le_refl _
  | b :: rest, i => by
    unfold indexOfFrom
    split
    · omega
    · have := indexOfFrom_ge w rest (i + 1)
      push_cast at this ⊢
      omega

theorem indexOf_eq_neg_one_iff (tl : V1.Timeline α) (e : V1.Event α) (s0 : V1.Snapshot α)
    (h : tl.snapshots.head? = some s0) :
    (V1.indexOf tl e = -1 ↔ e.when ≤ s0.begin) := by
  cases hs : tl.snapshots with
  | nil => rw [hs] at h; exact absurd h (by simp)
  | cons a rest =>
    rw [hs] at h
    have ha : a = s0 := by simpa using h
    subst ha
    unfold V1.indexOf
    rw [hs]
    simp only [List.map_cons]
    unfold indexOfFrom
    by_cases hc : e.when < a.begin ∨ e.when = a.begin
    · rw [if_pos hc]
      constructor
      · intro _
        omega
      · intro _
        norm_num
    · rw [if_neg hc]
      have hge := indexOfFrom_ge e.when (rest.map V1.Snapshot.begin) 1
      constructor
      · intro hcontra
        rw [hcontra] at hge
        norm_num at hge
      · intro hle
        exact absurd (by omega : e.when < a.begin ∨ e.when = a.begin) hc

/-- Claim C3 (amended): `Timeline::add` returns `false` if and only if the
event's timestamp is less than *or equal to* `snapshots[0].begin` at the
moment of the call; in particular an event whose timestamp equals the
oldest retained snapshot's begin is rejected. -/
theorem c3_admission (tl : V1.Timeline α) (e : V1.Event α) (s0 : V1.Snapshot α)
    (h : tl.snapshots.head? = some s0) :
    ((V1.add tl e).2 = false ↔ e.when ≤ s0.begin) := by
  rw [← indexOf_eq_neg_one_iff tl e s0 h]
  unfold V1.add
  by_cases hc : V1.indexOf tl e = -1
  · rw [if_pos hc]
    simpa using hc
  · rw [if_neg hc]
    simpa using hc

/-- Witness for `c3_admission` at the fresh timeline and an event at
time 2, whose hypothesis holds by `rfl`. -/
theorem c3_admission_witness :
    (V1.freshTimeline (α := Int)).snapshots.head? = some (⟨0, [], []⟩ : V1.Snapshot Int) ∧
      ((V1.add (V1.freshTimeline (α := Int)) (CE.inc 2 100)).2 = false ↔
        (CE.inc 2 100).when ≤ (V1.Snapshot.mk 0 ([] : V1.Stage Int) []).begin) :=
  ⟨rfl, c3_admission (V1.freshTimeline (α := Int)) (CE.inc 2 100) ⟨0, [], []⟩ rfl⟩

theorem indexOfFrom_eq_countP (w : Nat) :
    ∀ (l : List Nat), l.Pairwise (· < ·) →
      ∀ i : Nat, indexOfFrom w i l = (i : Int) + l.countP (fun x => decide (x < w)) - 1
  | [], _, i => by simp [indexOfFrom]
  | b :: rest, hp, i => by
    rcases List.pairwise_cons.mp hp with ⟨hb, hrest⟩
    unfold indexOfFrom
    by_cases hc : w < b ∨ w = b
    · rw [if_pos hc]
      have hbw : ¬(b < w) := by omega
      have h0 : rest.countP (fun x => decide (x < w)) = 0 := by
        rw [List.countP_eq_zero]
        intro x hx
        have := hb x hx
        simpa using by omega
      rw [List.countP_cons_of_neg _ _ (by simpa using hbw), h0]
      omega
    · rw [if_neg hc]
      have hbw : b < w := by omega
      rw [indexOfFrom_eq_countP w rest hrest (i + 1),
        List.countP_cons_of_pos _ _ (by simpa using hbw)]
      push_cast
      omega

theorem get?_lt_iff_lt_countP (w : Nat) :
    ∀ (l : List Nat), l.Pairwise (· < ·) →
      ∀ (j : Nat) (b : Nat), l.get? j = some b →
        (b < w ↔ j < l.countP (fun x => decide (x < w)))
  | [], _, j, b, hg => by simp at hg
  | a :: rest, hp, j, b, hg => by
    rcases List.pairwise_cons.mp hp with ⟨ha, hrest⟩
    have hzero : ¬(a < w) → rest.countP (fun x => decide (x < w)) = 0 := by
      intro haw
      rw [List.countP_eq_zero]
      intro x hx
      have := ha x hx
      simpa using by omega
    cases j with
    | zero =>
      have hb : a = b := by simpa using hg
      subst hb
      by_cases haw : a < w
      · rw [List.countP_cons_of_pos _ _ (by simpa using haw)]
        simpa using by omega
      · rw [List.countP_cons_of_neg _ _ (by simpa using haw), hzero haw]
        simpa using haw
    | succ m =>
      have hgm : rest.get? m = some b := by simpa using hg
      by_cases haw : a < w
      · rw [List.countP_cons_of_pos _ _ (by simpa using haw)]
        rw [get?_lt_iff_lt_countP w rest hrest m b hgm]
        omega
      · rw [List.countP_cons_of_neg _ _ (by simpa using haw), hzero haw]
        have hbm : b ∈ rest := List.get?_mem hgm
        have := ha b hbm
        constructor
        · intro hbw
          omega
        · intro hlt
          omega

/-- Claim C4 (amended): with strictly increasing snapshot begin-times, the
locate step anchors an event with timestamp `t` at the *largest* index `i`
such that `snapshots[i].begin < t` — strictly less, not less-or-equal:
`indexOf` returns the number of snapshots whose begin is strictly below `t`
minus one, and an index `j` satisfies `snapshots[j].begin < t` exactly when
`j ≤ indexOf`.  An event with `t == snapshots[i].begin` therefore anchors
in snapshot `i − 1` (and is rejected when `i = 0`). -/
theorem c4_locate_characterization (tl : V1.Timeline α) (e : V1.Event α)
    (hs : (tl.snapshots.map V1.Snapshot.begin).Pairwise (· < ·)) :
    V1.indexOf tl e
        = ((tl.snapshots.map V1.Snapshot.begin).countP (fun x => decide (x < e.when)) : Int) - 1 ∧
      ∀ (j : Nat) (snj : V1.Snapshot α), tl.snapshots.get? j = some snj →
        (snj.begin < e.when ↔ (j : Int) ≤ V1.indexOf tl e) := by
  have hmain : V1.indexOf tl e
      = ((tl.snapshots.map V1.Snapshot.begin).countP (fun x => decide (x < e.when)) : Int) - 1 := by
    unfold V1.indexOf
    rw [indexOfFrom_eq_countP e.when _ hs 0]
    push_cast
    omega
  refine ⟨hmain, ?_⟩
  intro j snj hj
  have hjm : (tl.snapshots.map V1.Snapshot.begin).get? j = some snj.begin := by
    rw [List.get?_map, hj]
    rfl
  rw [get?_lt_iff_lt_countP e.when _ hs j snj.begin hjm, hmain]
  omega

/-- Witness for `c4_locate_characterization`: fresh timeline plus a
snapshot at `t = 10` (begins `[0, 10]`), event at `t = 11`. -/
theorem c4_locate_characterization_witness :
    ((V1.snapshotAt (V1.freshTimeline (α := Int)) 10).snapshots.map
        V1.Snapshot.begin).Pairwise (· < ·) ∧
      V1.indexOf (V1.snapshotAt (V1.freshTimeline (α := Int)) 10) (CE.inc 11 100)
        = (((V1.snapshotAt (V1.freshTimeline (α := Int)) 10).snapshots.map
            V1.Snapshot.begin).countP (fun x => decide (x < (CE.inc 11 100).when)) : Int) - 1 :=
  ⟨by decide,
    (c4_locate_characterization (V1.snapshotAt (V1.freshTimeline (α := Int)) 10)
      (CE.inc 11 100) (by decide)).1⟩

theorem mem_insertLower (e x : V1.Event α) :
    ∀ l : List (V1.Event α), x ∈ V1.insertLower e l ↔ x = e ∨ x ∈ l
  | [] => by simp [V1.insertLower]
  | y :: ys => by
    unfold V1.insertLower
    split
    · simp only [List.mem_cons, mem_insertLower e x ys]
      tauto
    · simp only [List.mem_cons]

theorem pairwise_insertLower (e : V1.Event α) (l : List (V1.Event α))
    (h : l.Pairwise (fun x y => x.when ≤ y.when)) :
    (V1.insertLower e l).Pairwise (fun x y => x.when ≤ y.when) := by
  induction l with
  | nil => simp [V1.insertLower]
  | cons y ys ih =>
    rcases List.pairwise_cons.mp h with ⟨hy, hys⟩
    unfold V1.insertLower
    split
    · rename_i hlt
      refine List.pairwise_cons.mpr ⟨?_, ih hys⟩
      intro x hx
      rcases (mem_insertLower e x ys).mp hx with rfl | hxm
      · omega
      · exact hy x hxm
    · rename_i hnlt
      refine List.pairwise_cons.mpr ⟨?_, h⟩
      intro x hx
      rcases List.mem_cons.mp hx with rfl | hxm
      · omega
      · have := hy x hxm
        omega

theorem filter_insertLower_eq (e : V1.Event α) (t : Nat) (he : e.when = t) :
    ∀ l : List (V1.Event α),
      (V1.insertLower e l).filter (fun x => decide (x.when = t))
        = e :: l.filter (fun x => decide (x.when = t))
  | [] => by simp [V1.insertLower, he]
  | y :: ys => by
    unfold V1.insertLower
    split
    · rename_i hlt
      have hy : ¬(y.when = t) := by omega
      rw [List.filter_cons_of_neg (by simpa using hy), filter_insertLower_eq e t he ys,
        List.filter_cons_of_neg (by simpa using hy)]
    · rw [List.filter_cons_of_pos (by simpa using he)]

theorem filter_insertLower_ne (e : V1.Event α) (t : Nat) (he : ¬(e.when = t)) :
    ∀ l : List (V1.Event α),
      (V1.insertLower e l).filter (fun x => decide (x.when = t))
        = l.filter (fun x => decide (x.when = t))
  | [] => by simp [V1.insertLower, he]
  | y :: ys => by
    unfold V1.insertLower
    split
    · by_cases hy : y.when = t
      · rw [List.filter_cons_of_pos (by simpa using hy), filter_insertLower_ne e t he ys,
          List.filter_cons_of_pos (by simpa using hy)]
      · rw [List.filter_cons_of_neg (by simpa using hy), filter_insertLower_ne e t he ys,
          List.filter_cons_of_neg (by simpa using hy)]
    · rw [List.filter_cons_of_neg (by simpa using he)]

theorem foldl_insertLower_pairwise :
    ∀ (es : List (V1.Event α)) (l : List (V1.Event α)),
      l.Pairwise (fun x y => x.when ≤ y.when) →
      (es.foldl (fun acc e => V1.insertLower e acc) l).Pairwise (fun x y => x.when ≤ y.when)
  | [], _, h => h
  | e :: es, l, h => foldl_insertLower_pairwise es _ (pairwise_insertLower e l h)

theorem foldl_insertLower_filter (t : Nat) :
    ∀ (es : List (V1.Event α)) (l : List (V1.Event α)),
      (es.foldl (fun acc e => V1.insertLower e acc) l).filter (fun x => decide (x.when = t))
        = (es.filter (fun x => decide (x.when = t))).reverse
            ++ l.filter (fun x => decide (x.when = t))
  | [], l => by simp
  | e :: es, l => by
    rw [List.foldl_cons, foldl_insertLower_filter t es]
    by_cases he : e.when = t
    · rw [filter_insertLower_eq e t he l, List.filter_cons_of_pos (by simpa using he)]
      simp
    · rw [filter_insertLower_ne e t he l, List.filter_cons_of_neg (by simpa using he)]

theorem foldl_snapshot_add_events :
    ∀ (es : List (V1.Event α)) (sn : V1.Snapshot α),
      (es.foldl V1.Snapshot.add sn).events
        = es.foldl (fun acc e => V1.insertLower e acc) sn.events
  | [], _ => rfl
  | e :: es, sn => by
    rw [List.foldl_cons, List.foldl_cons, foldl_snapshot_add_events es (sn.add e)]
    rfl

/-- Claim C5 (amended): for every sequence of insertions via
`StageSnapshot::add` into a fresh snapshot, the event list is always sorted
ascending by timestamp, but among events with equal timestamps the list
order is the *reverse* of the insertion order (the `std::lower_bound`
insertion places a new event before previously inserted events of the same
timestamp). -/
theorem c5_sorted_reverse_ties (b : Nat) (st : V1.Stage α) (es : List (V1.Event α)) :
    ((es.foldl V1.Snapshot.add ⟨b, st, []⟩).events.Pairwise (fun x y => x.when ≤ y.when)) ∧
      ∀ t, (es.foldl V1.Snapshot.add ⟨b, st, []⟩).events.filter (fun x => decide (x.when = t))
          = (es.filter (fun x => decide (x.when = t))).reverse := by
  rw [foldl_snapshot_add_events]
  constructor
  · exact foldl_insertLower_pairwise es _ (by simp)
  · intro t
    rw [foldl_insertLower_filter]
    simp

theorem v2_add_shape (L : List (V2.Event α)) (e : V2.Event α) :
    V2.add ⟨[⟨0, [], L⟩], ⟨0, V2.applyEvents L [], []⟩⟩ e
      = ⟨[⟨0, [], logStep L e⟩], ⟨0, V2.applyEvents (logStep L e) [], []⟩⟩ := by
  cases hw : e.when with
  | zero =>
    have h1 : V2.indexOf (⟨[⟨0, [], L⟩], ⟨0, V2.applyEvents L [], []⟩⟩ : V2.Timeline α) e
        = -1 := by
      simp [V2.indexOf, indexOfFrom, hw]
    unfold V2.add
    rw [if_pos h1]
    simp [logStep, hw]
  | succ n =>
    have h1 : V2.indexOf (⟨[⟨0, [], L⟩], ⟨0, V2.applyEvents L [], []⟩⟩ : V2.Timeline α) e
        = 0 := by
      simp [V2.indexOf, indexOfFrom, hw]
    unfold V2.add
    rw [if_neg (by rw [h1]; decide), h1]
    show V2.addReplay _ e 0 = _
    simp [V2.addReplay, listModify, V2.Snapshot.addEvent, V2.thread, logStep, hw]

theorem v2_run_shape : ∀ (σ : List (V2.Event α)) (L : List (V2.Event α)),
    σ.foldl V2.add ⟨[⟨0, [], L⟩], ⟨0, V2.applyEvents L [], []⟩⟩
      = ⟨[⟨0, [], foldLog L σ⟩], ⟨0, V2.applyEvents (foldLog L σ) [], []⟩⟩
  | [], L => rfl
  | e :: σ, L => by
    rw [List.foldl_cons, v2_add_shape L e, v2_run_shape σ (logStep L e)]
    rfl

theorem v2_run_eq (σ : List (V2.Event α)) :
    V2.run σ = ⟨[⟨0, [], foldLog [] σ⟩], ⟨0, V2.applyEvents (foldLog [] σ) [], []⟩⟩ :=
  v2_run_shape σ []

theorem foldLog_pairwise : ∀ (σ : List (V2.Event α)) (L : List (V2.Event α)),
    L.Pairwise V2.ele → (foldLog L σ).Pairwise V2.ele
  | [], _, h => h
  | e :: σ, L, h => by
    apply foldLog_pairwise σ (logStep L e)
    unfold logStep
    split
    · exact List.sorted_insertionSort V2.ele (L ++ [e])
    · exact h

theorem foldLog_perm : ∀ (σ : List (V2.Event α)) (L : List (V2.Event α)),
    (foldLog L σ).Perm (L ++ σ.filter (fun e => decide (0 < e.when)))
  | [], L => by simp [foldLog]
  | e :: σ, L => by
    have h1 := foldLog_perm σ (logStep L e)
    by_cases he : 0 < e.when
    · have h2 : (logStep L e).Perm (L ++ [e]) := by
        rw [logStep, if_pos he]
        exact List.perm_insertionSort V2.ele (L ++ [e])
      have h3 : foldLog L (e :: σ) = foldLog (logStep L e) σ := rfl
      rw [h3, List.filter_cons_of_pos (by simpa using he)]
      refine h1.trans ((h2.append_right _).trans ?_)
      simp
    · have h2 : logStep L e = L := by rw [logStep, if_neg he]
      have h3 : foldLog L (e :: σ) = foldLog (logStep L e) σ := rfl
      rw [h3, h2, List.filter_cons_of_neg (by simpa using he)]
      exact foldLog_perm σ L

theorem eq_of_perm_of_pairwise_of_nodup :
    ∀ (l1 l2 : List (V2.Event α)), l1.Perm l2 → l1.Pairwise V2.ele →
      l2.Pairwise V2.ele → (l1.map V2.Event.when).Nodup → l1 = l2
  | [], l2, hp, _, _, _ => (List.Perm.eq_nil hp.symm).symm
  | a :: t1, l2, hp, hp1, hp2, hnd => by
    cases l2 with
    | nil => exact absurd hp.eq_nil (by simp)
    | cons b t2 =>
      rcases List.pairwise_cons.mp hp1 with ⟨ha1, ht1⟩
      rcases List.pairwise_cons.mp hp2 with ⟨hb2, ht2⟩
      rw [List.map_cons, List.nodup_cons] at hnd
      have hab : a = b := by
        rcases List.mem_cons.mp (hp.subset (List.mem_cons_self a t1)) with h | hat2
        · exact h
        · have hba : b.when ≤ a.when := hb2 a hat2
          rcases List.mem_cons.mp (hp.symm.subset (List.mem_cons_self b t2)) with h | hbt1
          · exact h.symm
          · have hab' : a.when ≤ b.when := ha1 b hbt1
            have heq : a.when = b.when := le_antisymm hab' hba
            refine absurd ?_ hnd.1
            rw [heq]
            exact List.mem_map_of_mem V2.Event.when hbt1
      subst hab
      rw [eq_of_perm_of_pairwise_of_nodup t1 t2 hp.cons_inv ht1 ht2 hnd.2]

/-- Claim C1 (amended): for an event multiset with pairwise distinct
timestamps, any two submission orders into a fresh Timeline through the
second variant's `Timeline::add` (the copy that threads the working stage
forward) leave an identical live stage.  The first variant's `add` violates
ordered-replay equivalence even for distinct timestamps
(see the counterexample), and for equal timestamps the stable tie-break
makes the applied order follow the submission order. -/
theorem c1_ordered_replay (σ1 σ2 : List (V2.Event α)) (hp : σ1.Perm σ2)
    (hd : (σ1.map V2.Event.when).Nodup) :
    (V2.run σ1).latest.stage = (V2.run σ2).latest.stage := by
  have hfilter : (σ1.filter (fun e => decide (0 < e.when))).Perm
      (σ2.filter (fun e => decide (0 < e.when))) := hp.filter _
  have hperm1 : (foldLog [] σ1).Perm (σ1.filter (fun e => decide (0 < e.when))) := by
    simpa using foldLog_perm σ1 []
  have hperm2 : (foldLog [] σ2).Perm (σ2.filter (fun e => decide (0 < e.when))) := by
    simpa using foldLog_perm σ2 []
  have hnd1 : ((foldLog [] σ1).map V2.Event.when).Nodup := by
    rw [List.Perm.nodup_iff (hperm1.map V2.Event.when)]
    exact List.Nodup.sublist (List.Sublist.map V2.Event.when (List.filter_sublist σ1)) hd
  have key : foldLog [] σ1 = foldLog [] σ2 :=
    eq_of_perm_of_pairwise_of_nodup _ _
      (hperm1.trans (hfilter.trans hperm2.symm))
      (foldLog_pairwise σ1 [] List.Pairwise.nil)
      (foldLog_pairwise σ2 [] List.Pairwise.nil)
      hnd1
  rw [v2_run_eq, v2_run_eq, key]

/-- Witness for `c1_ordered_replay`: the S1-style events with distinct
timestamps submitted forwards and backwards. -/
theorem c1_ordered_replay_witness :
    (([ST.create 1 100, ST.inc 2 100, ST.inc 3 100].map V2.Event.when).Nodup) ∧
      (V2.run [ST.create 1 100, ST.inc 2 100, ST.inc 3 100]).latest.stage
        = (V2.run [ST.inc 3 100, ST.inc 2 100, ST.create 1 100]).latest.stage :=
  ⟨by decide,
    c1_ordered_replay [ST.create 1 100, ST.inc 2 100, ST.inc 3 100]
      [ST.inc 3 100, ST.inc 2 100, ST.create 1 100]
      ([ST.create 1 100, ST.inc 2 100, ST.inc 3 100].reverse_perm.symm) (by decide)⟩

/-- Claim C8 (code bug, evaluation at the failing input): on a stage that
does not contain the id, `Stage::remove` (and the second variant's
`clearMapping`) calls `std::map::erase` on the `end()` iterator, which is
undefined behavior — embedded as the `none` result — instead of the
well-defined no-op the claim states. -/
theorem c8_remove_absent_undefined :
    V1.Stage.remove ([] : V1.Stage Int) 5 = none ∧
      V2.Stage.clearMapping ([] : V2.Stage Int) 5 = none :=
  ⟨rfl, rfl⟩

end Csplib
